import Mathlib

/-!
Verification of the TypeBuddy typing-speed test (src/script.js), as a shallow
embedding in Lean.  Pure fragments of the JavaScript (character comparison
loops, score arithmetic, the text cleaning pipeline, the Fisher-Yates shuffle,
the cache fallback logic and the mode-dependent end-of-test decisions) are
translated into executable Lean definitions; browser state (the DOM input
value, the timer) is passed explicitly, and the random source is an explicit
parameter.
-/

namespace TypeBuddy

/-- JavaScript `Math.round` on the rational value of its argument: round half
towards positive infinity, i.e. `floor (q + 1/2)`.  All values rounded by the
program are non-negative. -/
def jsRound (q : ℚ) : ℤ := ⌊q + 1/2⌋

/-- The error recount loop of `handleInput` (src/script.js lines 300-305):
`errors` is the number of indices `i < typedText.length` with
`i < currentQuote.length` and `typedText[i] !== currentQuote[i]`.  Typed
characters beyond the quote contribute nothing (second clause). -/
def recomputeErrors : List Char → List Char → Nat
  | [], _ => 0
  | _ :: _, [] => 0
  | t :: ts, q :: qs => (if t = q then 0 else 1) + recomputeErrors ts qs

/-- The `correctChars` loop of `endTest` (src/script.js lines 385-391): the
number of indices `i < typedTextValue.length` with `i < currentQuote.length`
and `typedTextValue[i] === currentQuote[i]`. -/
def correctCharsCount : List Char → List Char → Nat
  | [], _ => 0
  | _ :: _, [] => 0
  | t :: ts, q :: qs => (if t = q then 1 else 0) + correctCharsCount ts qs

/-- The score computation of `endTest` (src/script.js lines 379-406), as a
function of the final typed text, the active quote and the elapsed duration in
seconds: `timeInMinutes = duration / 60`;
`wpm = Math.round((correctChars / 5) / timeInMinutes)` when
`timeInMinutes > 0`, else `0`;
`accuracy = Math.round((correctChars / totalTypedChars) * 100)` when
`totalTypedChars > 0`, else `0`.  (The `wordsTyped` local of `endTest` is
computed but never used for the score, so it is not modelled.) -/
def endTestScore (typedTextValue currentQuote : List Char) (duration : ℚ) : ℤ × ℤ :=
  let correctChars : ℚ := (correctCharsCount typedTextValue currentQuote : ℚ)
  let totalTypedChars : Nat := typedTextValue.length
  let timeInMinutes : ℚ := duration / 60
  let wpm : ℤ := if 0 < timeInMinutes then jsRound (correctChars / 5 / timeInMinutes) else 0
  let accuracy : ℤ :=
    if 0 < totalTypedChars then jsRound (correctChars / (totalTypedChars : ℚ) * 100) else 0
  (wpm, accuracy)

/-- The keydown listener (src/script.js lines 449-453): in "no-backspace" mode
a Backspace keypress has its default action prevented. -/
def keydownPreventsDefault (selectedMode key : String) : Bool :=
  selectedMode == "no-backspace" && key == "Backspace"

/-- The value of the text input after an editing keypress during a running
test.  `key` is the DOM `KeyboardEvent.key`; `editedValue` is the value the
browser's default edit for that key would produce (for a deletion attempt, a
shorter value).  The keydown listener (src/script.js lines 449-453) prevents
the default edit only for Backspace in "no-backspace" mode; every other edit
goes through.  The subsequent `input` event is not cancelable, and the
"no-backspace" early return of `handleInput` (lines 288-292) only skips the
error recount — it never restores a previous value. -/
def applyEditingKey (selectedMode key : String) (value editedValue : List Char) : List Char :=
  if keydownPreventsDefault selectedMode key then value else editedValue

/-- Claim C4 as stated: in "no-backspace" mode every deletion attempt is
rejected — whatever the key, an edit that would shrink the typed value leaves
it unchanged, so the typed value's length never decreases. -/
def noBackspaceRejectsAllDeletions : Prop :=
  ∀ (key : String) (value editedValue : List Char),
    editedValue.length < value.length →
    applyEditingKey "no-backspace" key value editedValue = value

/-- The `handleInput` guard (src/script.js lines 288-292): in "no-backspace"
mode a `deleteContentBackward` input event is not processed (early return). -/
def handleInputRejectsDeletion (selectedMode inputType : String) : Bool :=
  selectedMode == "no-backspace" && inputType == "deleteContentBackward"

/-- The end-of-test decision of `handleInput` (src/script.js lines 309-313):
the test ends on an input event exactly when the mode is not "story" and the
typed length (`charIndex`) has reached the quote length. -/
def inputEndsTest (selectedMode : String) (typedText currentQuote : List Char) : Bool :=
  selectedMode != "story" && decide (typedText.length ≥ currentQuote.length)

/-- One tick of `updateTimer` (src/script.js lines 272-279), used by all
non-"story" modes: decrement `timeLeft`; the test ends when it reaches 0. -/
def updateTimer (timeLeft : Int) : Int × Bool :=
  (timeLeft - 1, decide (timeLeft - 1 ≤ 0))

/-- One tick of the "story" mode interval (src/script.js lines 256-260): it
only recomputes the elapsed-seconds display and contains no end-of-test call,
so the returned end flag is always `false`. -/
def storyTick (startTime now : Int) : Int × Bool :=
  ((now - startTime) / 1000, false)

/-- The story-mode half of claim C6 as stated: in "story" mode the test ends
once the full passage is typed, i.e. the input handler reports end-of-test as
soon as the typed length reaches the passage length. -/
def storyCompletionEndsTest : Prop :=
  ∀ typedText currentQuote : List Char,
    currentQuote.length ≤ typedText.length →
    inputEndsTest "story" typedText currentQuote = true

/-- The character class of the JavaScript regex `\s` (and of `String.trim`):
space, tab, line feed, carriage return, vertical tab, form feed, and the
Unicode space separators, line separators and BOM. -/
def isJsSpace (c : Char) : Bool :=
  c = ' ' || c = '\t' || c = '\n' || c = '\r' || c = '\x0b' || c = '\x0c' ||
  c = '\u00A0' || c = '\u1680' || c = '\u2000' || c = '\u2001' || c = '\u2002' ||
  c = '\u2003' || c = '\u2004' || c = '\u2005' || c = '\u2006' || c = '\u2007' ||
  c = '\u2008' || c = '\u2009' || c = '\u200A' || c = '\u2028' || c = '\u2029' ||
  c = '\u202F' || c = '\u205F' || c = '\u3000' || c = '\uFEFF'

/-- Cleaning step 1 (src/script.js line 77): the global replace of
`(\r\n|\n|\r)` by a single space.  The alternation tries `\r\n` first, so a
CRLF pair becomes one space. -/
def replaceNewlines : List Char → List Char
  | [] => []
  | '\r' :: '\n' :: rest => ' ' :: replaceNewlines rest
  | '\n' :: rest => ' ' :: replaceNewlines rest
  | '\r' :: rest => ' ' :: replaceNewlines rest
  | c :: rest => c :: replaceNewlines rest

/-- The class `[.?!,]` of cleaning step 2. -/
def isSentencePunct (c : Char) : Bool :=
  c = '.' || c = '?' || c = '!' || c = ','

/-- The class `[a-zA-Z]` of cleaning step 2. -/
def isAsciiLetter (c : Char) : Bool :=
  ('a' ≤ c && c ≤ 'z') || ('A' ≤ c && c ≤ 'Z')

/-- Cleaning step 2 (src/script.js line 81): the global replace of
`([.?!,])([a-zA-Z])` by `$1 $2`.  After a match, scanning resumes after the
matched letter; after a failure at one position, scanning advances by one. -/
def addSpaceAfterPunct : List Char → List Char
  | a :: b :: rest =>
    if isSentencePunct a && isAsciiLetter b then a :: ' ' :: b :: addSpaceAfterPunct rest
    else a :: addSpaceAfterPunct (b :: rest)
  | l => l

/-- The class `[a-z]` of cleaning step 3. -/
def isLowerAZ (c : Char) : Bool := 'a' ≤ c && c ≤ 'z'

/-- The class `[A-Z]` of cleaning step 3. -/
def isUpperAZ (c : Char) : Bool := 'A' ≤ c && c ≤ 'Z'

/-- Cleaning step 3 (src/script.js line 85): the global replace of
`([a-z])([A-Z])` by `$1 $2` (camel-case boundary break). -/
def addSpaceCamel : List Char → List Char
  | a :: b :: rest =>
    if isLowerAZ a && isUpperAZ b then a :: ' ' :: b :: addSpaceCamel rest
    else a :: addSpaceCamel (b :: rest)
  | l => l

/-- Worker for cleaning step 4: scan the characters carrying whether the
previous character belonged to a whitespace run.  The first character of each
run is emitted as one space, the rest of the run is dropped — exactly the
global replace of `\s+` by a single space. -/
def collapseSpacesGo : Bool → List Char → List Char
  | _, [] => []
  | prevSpace, c :: rest =>
    if isJsSpace c then
      if prevSpace then collapseSpacesGo true rest
      else ' ' :: collapseSpacesGo true rest
    else c :: collapseSpacesGo false rest

/-- Cleaning step 4 (src/script.js line 89): the global replace of `\s+` by a
single space — every maximal run of whitespace becomes one space. -/
def collapseSpaces (l : List Char) : List Char := collapseSpacesGo false l

/-- Helper for cleaning step 5: remove the trailing whitespace run.  A
character is dropped exactly when it is whitespace and everything after it was
dropped. -/
def dropTrailingSpaces : List Char → List Char
  | [] => []
  | c :: rest =>
    if dropTrailingSpaces rest = [] then (if isJsSpace c then [] else [c])
    else c :: dropTrailingSpaces rest

/-- Cleaning step 5 (src/script.js line 92): `trim()` removes leading and
trailing whitespace. -/
def trimChars (l : List Char) : List Char :=
  dropTrailingSpaces (l.dropWhile isJsSpace)

/-- The full cleaning pipeline applied to one candidate text, steps 1-5 in
source order (src/script.js lines 74-92). -/
def cleanText (textContent : List Char) : List Char :=
  trimChars (collapseSpaces (addSpaceCamel (addSpaceAfterPunct (replaceNewlines textContent))))

/-- Admission of one candidate (src/script.js lines 72-98): an empty
`textContent` is skipped, the rest is cleaned, and only cleaned texts of
length > 100 are kept. -/
def cleanCandidate (textContent : List Char) : Option (List Char) :=
  if textContent = [] then none
  else
    let cleanedText := cleanText textContent
    if cleanedText.length > 100 then some cleanedText else none

/-- Whether a character list contains two consecutive spaces. -/
def hasDoubleSpace : List Char → Bool
  | a :: b :: rest => (a == ' ' && b == ' ') || hasDoubleSpace (b :: rest)
  | _ => false

/-- Head-of-list space test used in the cleaning proofs. -/
def headIsBlank : List Char → Bool
  | [] => false
  | c :: _ => c == ' '

/-- The four fallback sentences of src/script.js: line 120 (no candidate
survived cleaning), line 124 (the API returned no documents), line 128 (the
batch fetch threw), and line 160 (`getNewQuote` with an empty cache). -/
def FALLBACK_NO_SUITABLE : String :=
  "The quick brown fox jumps over the lazy dog. This is a default sentence if API fails to provide suitable descriptions. It should have spaces now!"

/-- Fallback sentence for the empty-documents branch (src/script.js line 124). -/
def FALLBACK_NO_DOCS : String :=
  "The quick brown fox jumps over the lazy dog. This is a default sentence because the API returned no works. It should have spaces now!"

/-- Fallback sentence for the fetch-error branch (src/script.js line 128). -/
def FALLBACK_FETCH_ERROR : String :=
  "The quick brown fox jumps over the lazy dog. This is a default sentence due to an error fetching from the API. It should have spaces now!"

/-- Fallback sentence returned by `getNewQuote` on an empty cache
(src/script.js line 160). -/
def FALLBACK_EMPTY_CACHE : String :=
  "The quick brown fox jumps over the lazy dog. This is a fallback sentence. (No quotes cached)"

/-- `MAX_CACHED_QUOTES` (src/script.js line 24). -/
def MAX_CACHED_QUOTES : Nat := 20

/-- The destructuring swap of `shuffleArray` (src/script.js line 145):
exchange the elements at two positions; out-of-range indices never occur in
the shuffle loop and leave the list unchanged. -/
def listSwap {α : Type} (l : List α) (i j : Nat) : List α :=
  if h : i < l.length ∧ j < l.length then
    (l.set i (l.get ⟨j, h.2⟩)).set j (l.get ⟨i, h.1⟩)
  else l

/-- The loop of the Fisher-Yates shuffle `shuffleArray` (src/script.js lines
137-148).  `rand` is the stream of draws from `Math.random()`: at the
iteration entered with `currentIndex = n`, `randomIndex =
Math.floor(Math.random() * n)` is an arbitrary value below `n`, modelled as
`rand n % n`; `currentIndex` is then decremented and the elements at
`currentIndex` and `randomIndex` are swapped. -/
def shuffleGo {α : Type} (rand : Nat → Nat) (array : List α) : Nat → List α
  | 0 => array
  | n + 1 => shuffleGo rand (listSwap array n (rand (n + 1) % (n + 1))) n

/-- `shuffleArray` (src/script.js lines 137-148): run the loop starting from
`currentIndex = array.length`. -/
def shuffleArray {α : Type} (rand : Nat → Nat) (array : List α) : List α :=
  shuffleGo rand array array.length

/-- Outcome of the batch fetch in `fetchAndCacheQuotes` (src/script.js lines
48-128): the fetch or JSON parse threw; `data.docs` was missing or empty; or
a list of documents was returned, each contributing the `textContent` string
extracted for it (candidates whose detail fetch failed, had no key or no
description are already dropped by the `Promise.allSettled` / null filter of
lines 99-112 and are simply absent from the list). -/
inductive FetchOutcome where
  | fetchError : FetchOutcome
  | noDocs : FetchOutcome
  | docs (texts : List String) : FetchOutcome

/-- The `potentialQuotes` array (src/script.js lines 53-112): the cleaned
texts, of length > 100, of the candidates with non-empty `textContent`. -/
def potentialQuotes (texts : List String) : List String :=
  texts.filterMap (fun textContent => (cleanCandidate textContent.data).map String.mk)

/-- The cache contents computed by one fetch cycle of `fetchAndCacheQuotes`
(src/script.js lines 114-128): on success, the shuffled surviving candidates
truncated to `MAX_CACHED_QUOTES`; otherwise the fallback sentence of the
branch taken. -/
def fetchResultCache (outcome : FetchOutcome) (rand : Nat → Nat) : List String :=
  match outcome with
  | FetchOutcome.fetchError => [FALLBACK_FETCH_ERROR]
  | FetchOutcome.noDocs => [FALLBACK_NO_DOCS]
  | FetchOutcome.docs texts =>
    if 0 < (potentialQuotes texts).length then
      (shuffleArray rand (potentialQuotes texts)).take MAX_CACHED_QUOTES
    else [FALLBACK_NO_SUITABLE]

/-- `getNewQuote` (src/script.js lines 154-163): pick the quote at
`Math.floor(Math.random() * cachedQuotes.length)` — an arbitrary index below
the length, modelled as `rand % length` — or the fallback sentence if the
cache is empty. -/
def getNewQuote (cachedQuotes : List String) (rand : Nat) : String :=
  if h : 0 < cachedQuotes.length then
    cachedQuotes.get ⟨rand % cachedQuotes.length, Nat.mod_lt rand h⟩
  else FALLBACK_EMPTY_CACHE

/-- `fetchAndCacheQuotes` (src/script.js lines 39-134) at the caching level:
with a non-empty cache it returns at once (line 40-43, flag `false` = no
fetch); otherwise it performs the fetch cycle and installs its result (flag
`true` = fetched). -/
def fetchAndCacheQuotes (cachedQuotes : List String) (outcome : FetchOutcome)
    (rand : Nat → Nat) : List String × Bool :=
  if 0 < cachedQuotes.length then (cachedQuotes, false)
  else (fetchResultCache outcome rand, true)

/-- Claim C3 as stated: one single fixed fallback sentence is installed by
every failure branch of the fetch cycle, and `getNewQuote` on an empty cache
returns that same sentence. -/
def singleFallbackClaim : Prop :=
  ∃ s : String,
    (∀ rand, fetchResultCache FetchOutcome.fetchError rand = [s]) ∧
    (∀ rand, fetchResultCache FetchOutcome.noDocs rand = [s]) ∧
    (∀ texts rand, potentialQuotes texts = [] →
        fetchResultCache (FetchOutcome.docs texts) rand = [s]) ∧
    (∀ r, getNewQuote [] r = s)

theorem recomputeErrors_eq_card (P Q : List Char) :
    recomputeErrors P Q =
      ((Finset.range (min P.length Q.length)).filter
        (fun i => P.getD i ' ' ≠ Q.getD i ' ')).card := by
  induction P generalizing Q with
  | nil => simp [recomputeErrors]
  | cons p ps ih =>
    cases Q with
    | nil => simp [recomputeErrors]
    | cons q qs =>
      rw [recomputeErrors, ih qs]
      rw [Finset.card_filter, Finset.card_filter]
      simp only [List.length_cons, Nat.succ_min_succ, Finset.sum_range_succ',
        List.getD_cons_succ, List.getD_cons_zero]
      by_cases hpq : p = q <;> simp [hpq, Nat.add_comm]

theorem correctCharsCount_eq_card (P Q : List Char) :
    correctCharsCount P Q =
      ((Finset.range (min P.length Q.length)).filter
        (fun i => P.getD i ' ' = Q.getD i ' ')).card := by
  induction P generalizing Q with
  | nil => simp [correctCharsCount]
  | cons p ps ih =>
    cases Q with
    | nil => simp [correctCharsCount]
    | cons q qs =>
      rw [correctCharsCount, ih qs]
      rw [Finset.card_filter, Finset.card_filter]
      simp only [List.length_cons, Nat.succ_min_succ, Finset.sum_range_succ',
        List.getD_cons_succ, List.getD_cons_zero]
      by_cases hpq : p = q <;> simp [hpq, Nat.add_comm]

theorem recomputeErrors_le_length (P Q : List Char) :
    recomputeErrors P Q ≤ P.length := by
  induction P generalizing Q with
  | nil => simp [recomputeErrors]
  | cons p ps ih =>
    cases Q with
    | nil => simp [recomputeErrors]
    | cons q qs =>
      rw [recomputeErrors]
      have h := ih qs
      by_cases hpq : p = q <;> simp [hpq] <;> omega

theorem correctCharsCount_le_length (P Q : List Char) :
    correctCharsCount P Q ≤ P.length := by
  induction P generalizing Q with
  | nil => simp [correctCharsCount]
  | cons p ps ih =>
    cases Q with
    | nil => simp [correctCharsCount]
    | cons q qs =>
      rw [correctCharsCount]
      have h := ih qs
      by_cases hpq : p = q <;> simp [hpq] <;> omega

/-- Claim C1: at finalization, `correctChars` is the number of positions
`i < min (len typedText) (len passage)` where the typed character equals the
passage character; `wpm = round((correctChars / 5) / (duration / 60))` exactly
when `duration > 0` and `0` otherwise; `accuracyPercent =
round(correctChars / totalTypedChars * 100)` exactly when
`totalTypedChars = len typedText > 0` and `0` otherwise; and for passage
"Hello world" with typed "Hxllo world" the accuracy is `round(10/11*100) = 91`. -/
theorem endTest_finalization_spec (t q : List Char) (d : ℚ) :
    correctCharsCount t q =
      ((Finset.range (min t.length q.length)).filter
        (fun i => t.getD i ' ' = q.getD i ' ')).card ∧
    (endTestScore t q d).1 =
      (if 0 < d then jsRound ((correctCharsCount t q : ℚ) / 5 / (d / 60)) else 0) ∧
    (endTestScore t q d).2 =
      (if 0 < t.length then jsRound ((correctCharsCount t q : ℚ) / (t.length : ℚ) * 100)
       else 0) ∧
    (endTestScore ("Hxllo world".data) ("Hello world".data) d).2 = 91 := by
  refine ⟨correctCharsCount_eq_card t q, ?_, ?_, ?_⟩
  · by_cases hd : 0 < d
    · have h60 : 0 < d / 60 := by positivity
      simp [endTestScore, hd, h60]
    · have h60 : ¬ 0 < d / 60 := fun hc => hd (by linarith)
      simp [endTestScore, hd, h60]
  · rfl
  · have h : correctCharsCount ("Hxllo world".data) ("Hello world".data) = 10 := by decide
    have hl : ("Hxllo world".data).length = 11 := by decide
    simp only [endTestScore, jsRound, h, hl]
    norm_num

/-- Claim C2: after each input event the recomputed `errors` equals the number
of positions `i < min (len P) (len Q)` with `P[i] ≠ Q[i]`; positions beyond the
passage are never counted, so `errors ≤ len P`. -/
theorem handleInput_errorCount_spec (P Q : List Char) :
    recomputeErrors P Q =
      ((Finset.range (min P.length Q.length)).filter
        (fun i => P.getD i ' ' ≠ Q.getD i ' ')).card ∧
    recomputeErrors P Q ≤ P.length :=
  ⟨recomputeErrors_eq_card P Q, recomputeErrors_le_length P Q⟩

/-- Claim C9: finalization is deterministic — on equal (typed text, passage,
duration) triples the score computation yields equal (wpm, accuracy) pairs. -/
theorem endTestScore_deterministic (t₁ q₁ : List Char) (d₁ : ℚ)
    (t₂ q₂ : List Char) (d₂ : ℚ) (ht : t₁ = t₂) (hq : q₁ = q₂) (hd : d₁ = d₂) :
    endTestScore t₁ q₁ d₁ = endTestScore t₂ q₂ d₂ := by
  rw [ht, hq, hd]

/-- Witness for C9 at a concrete triple. -/
theorem endTestScore_deterministic_check :
    endTestScore ("ab".data) ("ab".data) 5 = endTestScore ("ab".data) ("ab".data) 5 :=
  endTestScore_deterministic ("ab".data) ("ab".data) 5 ("ab".data) ("ab".data) 5 rfl rfl rfl

/-- Claim C10: the finalized result always satisfies `0 ≤ accuracy ≤ 100` and
`wpm ≥ 0`, because `correctChars ≤ totalTypedChars` and all quantities are
non-negative, even when the typed text is longer than the passage. -/
theorem endTestScore_bounds (t q : List Char) (d : ℚ) :
    correctCharsCount t q ≤ t.length ∧
    0 ≤ (endTestScore t q d).1 ∧
    0 ≤ (endTestScore t q d).2 ∧ (endTestScore t q d).2 ≤ 100 := by
  refine ⟨correctCharsCount_le_length t q, ?_, ?_, ?_⟩
  · simp only [endTestScore]
    split
    · next h =>
      refine Int.le_floor.mpr ?_
      have hx : (0:ℚ) ≤ (correctCharsCount t q : ℚ) / 5 / (d / 60) :=
        div_nonneg (div_nonneg (Nat.cast_nonneg _) (by norm_num)) (le_of_lt h)
      push_cast
      linarith
    · exact le_refl 0
  · simp only [endTestScore]
    split
    · next h =>
      refine Int.le_floor.mpr ?_
      have hx : (0:ℚ) ≤ (correctCharsCount t q : ℚ) / (t.length : ℚ) * 100 :=
        mul_nonneg (div_nonneg (Nat.cast_nonneg _) (Nat.cast_nonneg _)) (by norm_num)
      push_cast
      linarith
    · exact le_refl 0
  · simp only [endTestScore]
    split
    · next h =>
      have hT : (0:ℚ) < (t.length : ℚ) := by exact_mod_cast h
      have hle : (correctCharsCount t q : ℚ) ≤ (t.length : ℚ) := by
        exact_mod_cast correctCharsCount_le_length t q
      have hx : (correctCharsCount t q : ℚ) / (t.length : ℚ) ≤ 1 :=
        (div_le_one hT).mpr hle
      have hb : (correctCharsCount t q : ℚ) / (t.length : ℚ) * 100 + 1/2 ≤ 201/2 := by
        nlinarith
      calc jsRound ((correctCharsCount t q : ℚ) / (t.length : ℚ) * 100)
          ≤ ⌊(201/2 : ℚ)⌋ := Int.floor_mono hb
        _ = 100 := by norm_num
    · norm_num

/-- Counterexample to claim C4: the code intercepts only `e.key ===
'Backspace'` (src/script.js line 450) and `deleteContentBackward` input events
(line 289), so in "no-backspace" mode a Delete-key deletion is not prevented:
with typed "abc", the value shrinks to "ab" instead of staying "abc". -/
theorem noBackspaceRejectsAllDeletions_false : ¬ noBackspaceRejectsAllDeletions := by
  intro h
  have hc := h "Delete" ("abc".data) ("ab".data) (by decide)
  have he : applyEditingKey "no-backspace" "Delete" ("abc".data) ("ab".data) = "ab".data := by
    decide
  rw [he] at hc
  exact absurd hc (by decide)

/-- Claim C4, amended: in "no-backspace" mode only Backspace deletions are
rejected — a Backspace keypress leaves the typed value unchanged whatever edit
it would have made (in particular "abc" stays "abc"), and the input handler
skips backward-deletion input events without recomputing errors; a deletion
attempt through any other key (Delete, cut shortcuts) is not prevented and its
edit applies unchanged. -/
theorem noBackspace_rejects_backspace_only :
    (∀ value editedValue : List Char,
        applyEditingKey "no-backspace" "Backspace" value editedValue = value) ∧
    applyEditingKey "no-backspace" "Backspace" ("abc".data) ("ab".data) = "abc".data ∧
    handleInputRejectsDeletion "no-backspace" "deleteContentBackward" = true ∧
    (∀ (key : String) (value editedValue : List Char), key ≠ "Backspace" →
        applyEditingKey "no-backspace" key value editedValue = editedValue) := by
  refine ⟨fun value editedValue => ?_, by decide, by decide,
    fun key value editedValue hk => ?_⟩
  · simp [applyEditingKey, keydownPreventsDefault]
  · simp [applyEditingKey, keydownPreventsDefault, hk]

/-- Witness for the amended C4 at a concrete input: the Delete key is not
Backspace, so its deletion applies and "abc" becomes "ab". -/
theorem noBackspace_rejects_backspace_only_check :
    applyEditingKey "no-backspace" "Delete" ("abc".data) ("ab".data) = "ab".data :=
  noBackspace_rejects_backspace_only.2.2.2 "Delete" ("abc".data) ("ab".data) (by decide)

/-- Counterexample to claim C6: with passage "Hi" fully typed in story mode,
`handleInput` does not end the test (its condition explicitly excludes
"story"), refuting that in story mode the test ends when the full passage is
typed. -/
theorem storyCompletionEndsTest_false : ¬ storyCompletionEndsTest := by
  intro h
  have hc := h ("Hi".data) ("Hi".data) (le_refl _)
  have : inputEndsTest "story" ("Hi".data) ("Hi".data) = false := by decide
  rw [this] at hc
  exact Bool.false_ne_true hc

/-- Claim C6, amended: for every mode other than "story", reaching typed
length ≥ passage length makes the input handler end the test; in "story" mode
the timer tick never ends the test (no timeout), and the input handler never
ends it either — not even when the full passage is typed — so a story test
ends only through an explicit stop request. -/
theorem inputEndsTest_spec :
    (∀ (mode : String) (t q : List Char), mode ≠ "story" →
        q.length ≤ t.length → inputEndsTest mode t q = true) ∧
    (∀ s n : Int, (storyTick s n).2 = false) ∧
    (∀ t q : List Char, inputEndsTest "story" t q = false) := by
  refine ⟨fun mode t q hmode hlen => ?_, fun s n => rfl, fun t q => ?_⟩
  · simp [inputEndsTest, bne_iff_ne, hmode, hlen]
  · simp [inputEndsTest]

/-- Witness for the amended C6 at a concrete input: in "normal" mode, typing
both characters of the passage "ab" ends the test. -/
theorem inputEndsTest_spec_check : inputEndsTest "normal" ("ab".data) ("ab".data) = true :=
  inputEndsTest_spec.1 "normal" ("ab".data) ("ab".data) (by decide) (by decide)

theorem hasDoubleSpace_cons (x : Char) (xs : List Char) :
    hasDoubleSpace (x :: xs) = ((x == ' ' && headIsBlank xs) || hasDoubleSpace xs) := by
  cases xs <;> simp [hasDoubleSpace, headIsBlank]

theorem beq_blank_false_of_not_space {c : Char} (h : ¬ isJsSpace c = true) :
    (c == ' ') = false := by
  have hc : c ≠ ' ' := fun hcc => h (by rw [hcc]; decide)
  simpa using hc

theorem collapseSpacesGo_true_head (l : List Char) :
    headIsBlank (collapseSpacesGo true l) = false := by
  induction l with
  | nil => rfl
  | cons c rest ih =>
    by_cases h : isJsSpace c = true
    · simpa [collapseSpacesGo, h] using ih
    · simp [collapseSpacesGo, h, headIsBlank, beq_blank_false_of_not_space h]

theorem hasDoubleSpace_collapseGo (b : Bool) (l : List Char) :
    hasDoubleSpace (collapseSpacesGo b l) = false := by
  induction l generalizing b with
  | nil => cases b <;> rfl
  | cons c rest ih =>
    by_cases h : isJsSpace c = true
    · cases b
      · simp [collapseSpacesGo, h, hasDoubleSpace_cons, collapseSpacesGo_true_head, ih]
      · simpa [collapseSpacesGo, h] using ih true
    · simp [collapseSpacesGo, h, hasDoubleSpace_cons,
        beq_blank_false_of_not_space h, ih]

theorem collapseSpacesGo_blank (b : Bool) (l : List Char) :
    ∀ c ∈ collapseSpacesGo b l, isJsSpace c = true → c = ' ' := by
  induction l generalizing b with
  | nil => simp [collapseSpacesGo]
  | cons x rest ih =>
    intro c hc hsp
    by_cases h : isJsSpace x = true
    · cases b
      · simp [collapseSpacesGo, h] at hc
        rcases hc with rfl | hc
        · rfl
        · exact ih true c hc hsp
      · simp [collapseSpacesGo, h] at hc
        exact ih true c hc hsp
    · simp [collapseSpacesGo, h] at hc
      rcases hc with rfl | hc
      · exact absurd hsp h
      · exact ih false c hc hsp

theorem hasDoubleSpace_tail {x : Char} {xs : List Char}
    (h : hasDoubleSpace (x :: xs) = false) : hasDoubleSpace xs = false := by
  rw [hasDoubleSpace_cons] at h
  exact (Bool.or_eq_false_iff.mp h).2

theorem mem_of_mem_dropWhileJs {c : Char} {l : List Char}
    (h : c ∈ l.dropWhile isJsSpace) : c ∈ l := by
  induction l with
  | nil => simp at h
  | cons x rest ih =>
    rw [List.dropWhile_cons] at h
    split at h
    · exact List.mem_cons_of_mem x (ih h)
    · exact h

theorem hasDoubleSpace_dropWhileJs {l : List Char}
    (h : hasDoubleSpace l = false) : hasDoubleSpace (l.dropWhile isJsSpace) = false := by
  induction l with
  | nil => exact h
  | cons x rest ih =>
    rw [List.dropWhile_cons]
    split
    · exact ih (hasDoubleSpace_tail h)
    · exact h

theorem mem_of_mem_dropTrailingSpaces {c : Char} {l : List Char}
    (h : c ∈ dropTrailingSpaces l) : c ∈ l := by
  induction l with
  | nil => simp [dropTrailingSpaces] at h
  | cons x rest ih =>
    by_cases hr : dropTrailingSpaces rest = []
    · by_cases hx : isJsSpace x = true
      · simp [dropTrailingSpaces, hr, hx] at h
      · simp [dropTrailingSpaces, hr, hx] at h
        simp [h]
    · rw [dropTrailingSpaces, if_neg hr] at h
      rcases List.mem_cons.mp h with rfl | hm
      · exact List.mem_cons_self c rest
      · exact List.mem_cons_of_mem x (ih hm)

theorem headIsBlank_dropTrailingSpaces {l : List Char}
    (h : headIsBlank (dropTrailingSpaces l) = true) : headIsBlank l = true := by
  cases l with
  | nil => simp [dropTrailingSpaces, headIsBlank] at h
  | cons x rest =>
    by_cases hr : dropTrailingSpaces rest = []
    · by_cases hx : isJsSpace x = true
      · simp [dropTrailingSpaces, hr, hx, headIsBlank] at h
      · simp [dropTrailingSpaces, hr, hx, headIsBlank] at h
        simp [headIsBlank, h]
    · rw [dropTrailingSpaces, if_neg hr] at h
      cases hdts : dropTrailingSpaces rest with
      | nil => exact absurd hdts hr
      | cons b r =>
        simp [headIsBlank] at h
        simp [headIsBlank, h]

theorem hasDoubleSpace_dropTrailingSpaces {l : List Char}
    (h : hasDoubleSpace l = false) : hasDoubleSpace (dropTrailingSpaces l) = false := by
  induction l with
  | nil => simpa [dropTrailingSpaces] using h
  | cons x rest ih =>
    by_cases hr : dropTrailingSpaces rest = []
    · by_cases hx : isJsSpace x = true
      · simp [dropTrailingSpaces, hr, hx, hasDoubleSpace]
      · simp [dropTrailingSpaces, hr, hx, hasDoubleSpace]
    · rw [dropTrailingSpaces, if_neg hr, hasDoubleSpace_cons]
      have htail : hasDoubleSpace (dropTrailingSpaces rest) = false :=
        ih (hasDoubleSpace_tail h)
      have hx : (x == ' ' && headIsBlank (dropTrailingSpaces rest)) = false := by
        cases hb : (x == ' ' && headIsBlank (dropTrailingSpaces rest)) with
        | false => rfl
        | true =>
          exfalso
          rcases Bool.and_eq_true_iff.mp hb with ⟨hx1, hx2⟩
          have hrest : headIsBlank rest = true := headIsBlank_dropTrailingSpaces hx2
          rw [hasDoubleSpace_cons, hx1, hrest] at h
          simp at h
      rw [hx, htail]
      rfl

theorem hasDoubleSpace_trimChars {l : List Char}
    (h : hasDoubleSpace l = false) : hasDoubleSpace (trimChars l) = false :=
  hasDoubleSpace_dropTrailingSpaces (hasDoubleSpace_dropWhileJs h)

theorem mem_of_mem_trimChars {c : Char} {l : List Char} (h : c ∈ trimChars l) : c ∈ l :=
  mem_of_mem_dropWhileJs (mem_of_mem_dropTrailingSpaces h)

/-- Claim C5: every candidate admitted to the cache by the five-step cleaning
pipeline has length > 100, contains no raw line-break character (LF, CR, or
the Unicode line/paragraph separators), and contains no run of two or more
consecutive spaces. -/
theorem cleanCandidate_invariants (raw cleaned : List Char)
    (h : cleanCandidate raw = some cleaned) :
    100 < cleaned.length ∧
    (∀ c ∈ cleaned, c ≠ '\n' ∧ c ≠ '\r' ∧ c ≠ '\u2028' ∧ c ≠ '\u2029') ∧
    hasDoubleSpace cleaned = false := by
  unfold cleanCandidate at h
  split at h
  · exact absurd h (by simp)
  · simp only at h
    split at h
    case isTrue hlen =>
      have hct : cleanText raw = cleaned := by
        simpa using h
      subst hct
      refine ⟨hlen, ?_, ?_⟩
      · intro c hc
        have hmem : c ∈ collapseSpaces (addSpaceCamel (addSpaceAfterPunct
            (replaceNewlines raw))) := mem_of_mem_trimChars hc
        have hblank := collapseSpacesGo_blank false _ c hmem
        refine ⟨?_, ?_, ?_, ?_⟩ <;> rintro rfl <;>
          exact absurd (hblank (by decide)) (by decide)
      · exact hasDoubleSpace_trimChars (hasDoubleSpace_collapseGo false _)
    case isFalse => exact absurd h (by simp)

/-- Witness for C5 at a concrete input: 101 letters survive cleaning
unchanged, and the admitted passage has no double space. -/
theorem cleanCandidate_invariants_check :
    hasDoubleSpace (List.replicate 101 'a') = false := by
  have h : cleanCandidate (List.replicate 101 'a') = some (List.replicate 101 'a') := by
    set_option maxRecDepth 4096 in decide
  exact (cleanCandidate_invariants (List.replicate 101 'a') (List.replicate 101 'a') h).2.2

theorem get_cons_set_perm {α : Type} :
    ∀ (l : List α) (k : Nat) (hk : k < l.length) (a : α),
      (l.get ⟨k, hk⟩ :: l.set k a).Perm (a :: l)
  | [], k, hk, _ => absurd hk (by simp)
  | c :: tl, 0, _, a => List.Perm.swap a c tl
  | c :: tl, k + 1, hk, a =>
    ((List.Perm.swap c (tl.get ⟨k, Nat.lt_of_succ_lt_succ hk⟩) (tl.set k a)).trans
      ((get_cons_set_perm tl k (Nat.lt_of_succ_lt_succ hk) a).cons c)).trans
      (List.Perm.swap a c tl)

theorem set_set_perm {α : Type} :
    ∀ (l : List α) (i j : Nat) (hi : i < l.length) (hj : j < l.length),
      ((l.set i (l.get ⟨j, hj⟩)).set j (l.get ⟨i, hi⟩)).Perm l
  | [], i, _, hi, _ => absurd hi (by simp)
  | _ :: _, 0, 0, _, _ => List.Perm.refl _
  | c :: tl, 0, k + 1, _, hj => get_cons_set_perm tl k (Nat.lt_of_succ_lt_succ hj) c
  | c :: tl, m + 1, 0, hi, _ => get_cons_set_perm tl m (Nat.lt_of_succ_lt_succ hi) c
  | c :: tl, m + 1, k + 1, hi, hj =>
    (set_set_perm tl m k (Nat.lt_of_succ_lt_succ hi) (Nat.lt_of_succ_lt_succ hj)).cons c

theorem listSwap_perm {α : Type} (l : List α) (i j : Nat) : (listSwap l i j).Perm l := by
  unfold listSwap
  split
  case isTrue h => exact set_set_perm l i j h.1 h.2
  case isFalse => exact List.Perm.refl l

theorem shuffleGo_perm {α : Type} (rand : Nat → Nat) :
    ∀ (n : Nat) (array : List α), (shuffleGo rand array n).Perm array
  | 0, array => List.Perm.refl array
  | n + 1, array =>
    (shuffleGo_perm rand n (listSwap array n (rand (n + 1) % (n + 1)))).trans
      (listSwap_perm array n (rand (n + 1) % (n + 1)))

theorem shuffleArray_perm {α : Type} (rand : Nat → Nat) (array : List α) :
    (shuffleArray rand array).Perm array :=
  shuffleGo_perm rand array.length array

theorem fetchResultCache_nonempty (o : FetchOutcome) (rand : Nat → Nat) :
    0 < (fetchResultCache o rand).length := by
  cases o with
  | fetchError => simp [fetchResultCache]
  | noDocs => simp [fetchResultCache]
  | docs texts =>
    rw [fetchResultCache]
    split
    case isTrue h =>
      rw [List.length_take, (shuffleArray_perm rand (potentialQuotes texts)).length_eq]
      exact lt_min (by norm_num [MAX_CACHED_QUOTES]) h
    case isFalse => simp

/-- Counterexample to claim C3: the fetch-error branch and the no-documents
branch install two different sentences, so no single fixed fallback sentence
serves all branches. -/
theorem singleFallbackClaim_false : ¬ singleFallbackClaim := by
  rintro ⟨s, h1, h2, -, -⟩
  have e1 : [FALLBACK_FETCH_ERROR] = [s] := h1 (fun _ => 0)
  have e2 : [FALLBACK_NO_DOCS] = [s] := h2 (fun _ => 0)
  rw [← e1] at e2
  have : FALLBACK_NO_DOCS = FALLBACK_FETCH_ERROR := by injection e2
  exact absurd this (by decide)

/-- Claim C3, amended: each failure branch installs exactly one fixed
fallback sentence, but the sentences differ from branch to branch, and
`getNewQuote` on an empty cache returns yet another fixed sentence (all four
are pairwise distinct) rather than failing. -/
theorem fallback_branches_spec :
    (∀ rand, fetchResultCache FetchOutcome.fetchError rand = [FALLBACK_FETCH_ERROR]) ∧
    (∀ rand, fetchResultCache FetchOutcome.noDocs rand = [FALLBACK_NO_DOCS]) ∧
    (∀ texts rand, potentialQuotes texts = [] →
        fetchResultCache (FetchOutcome.docs texts) rand = [FALLBACK_NO_SUITABLE]) ∧
    (∀ r, getNewQuote [] r = FALLBACK_EMPTY_CACHE) ∧
    FALLBACK_FETCH_ERROR ≠ FALLBACK_NO_DOCS ∧
    FALLBACK_FETCH_ERROR ≠ FALLBACK_NO_SUITABLE ∧
    FALLBACK_NO_DOCS ≠ FALLBACK_NO_SUITABLE ∧
    FALLBACK_EMPTY_CACHE ≠ FALLBACK_FETCH_ERROR ∧
    FALLBACK_EMPTY_CACHE ≠ FALLBACK_NO_DOCS ∧
    FALLBACK_EMPTY_CACHE ≠ FALLBACK_NO_SUITABLE := by
  refine ⟨fun rand => rfl, fun rand => rfl, fun texts rand h => ?_, fun r => rfl,
    by decide, by decide, by decide, by decide, by decide, by decide⟩
  rw [fetchResultCache, h]
  simp

/-- Witness for the amended C3 at a concrete input: an empty document list has
no surviving candidate, so the no-suitable fallback is installed. -/
theorem fallback_branches_spec_check :
    fetchResultCache (FetchOutcome.docs []) (fun _ => 0) = [FALLBACK_NO_SUITABLE] :=
  fallback_branches_spec.2.2.1 [] (fun _ => 0) rfl

/-- Claim C7: `shuffleArray` returns a permutation of its input; after a
successful fetch cycle the cache is the first-`MAX_CACHED_QUOTES` truncation
of such a permutation of the surviving candidates; hence the cache never
exceeds the capacity of 20 and every cached passage is a surviving cleaned
candidate. -/
theorem shuffleArray_cache_spec :
    (∀ (rand : Nat → Nat) (l : List String), (shuffleArray rand l).Perm l) ∧
    (∀ (o : FetchOutcome) (rand : Nat → Nat),
        (fetchResultCache o rand).length ≤ MAX_CACHED_QUOTES) ∧
    (∀ (texts : List String) (rand : Nat → Nat), 0 < (potentialQuotes texts).length →
        fetchResultCache (FetchOutcome.docs texts) rand =
          (shuffleArray rand (potentialQuotes texts)).take MAX_CACHED_QUOTES) ∧
    (∀ (texts : List String) (rand : Nat → Nat) (q : String),
        q ∈ fetchResultCache (FetchOutcome.docs texts) rand →
        0 < (potentialQuotes texts).length → q ∈ potentialQuotes texts) := by
  refine ⟨shuffleArray_perm, fun o rand => ?_, fun texts rand h => ?_,
    fun texts rand q hq hpos => ?_⟩
  · cases o with
    | fetchError => norm_num [fetchResultCache, MAX_CACHED_QUOTES]
    | noDocs => norm_num [fetchResultCache, MAX_CACHED_QUOTES]
    | docs texts =>
      rw [fetchResultCache]
      split
      · rw [List.length_take]
        exact min_le_left _ _
      · norm_num [MAX_CACHED_QUOTES]
  · rw [fetchResultCache, if_pos h]
  · rw [fetchResultCache, if_pos hpos] at hq
    exact ((shuffleArray_perm rand (potentialQuotes texts)).mem_iff).mp
      ((List.take_sublist _ _).subset hq)

/-- Witness for C7 at a concrete input: one 101-letter candidate survives, and
the resulting cache is the truncated shuffle of the survivors. -/
theorem shuffleArray_cache_spec_check :
    fetchResultCache (FetchOutcome.docs [String.mk (List.replicate 101 'a')]) (fun _ => 0) =
      (shuffleArray (fun _ => 0)
        (potentialQuotes [String.mk (List.replicate 101 'a')])).take MAX_CACHED_QUOTES :=
  shuffleArray_cache_spec.2.2.1 [String.mk (List.replicate 101 'a')] (fun _ => 0)
    (by set_option maxRecDepth 4096 in decide)

/-- Claim C8: `fetchAndCacheQuotes` is idempotent — with a non-empty cache it
returns immediately without fetching, and since every fetch cycle leaves a
non-empty cache, a second call in sequence never fetches: two sequential
calls perform at most one fetch cycle. -/
theorem fetchAndCacheQuotes_idempotent (cache : List String) (o₁ o₂ : FetchOutcome)
    (r₁ r₂ : Nat → Nat) :
    (0 < cache.length → fetchAndCacheQuotes cache o₁ r₁ = (cache, false)) ∧
    (fetchAndCacheQuotes (fetchAndCacheQuotes cache o₁ r₁).1 o₂ r₂).2 = false := by
  constructor
  · intro h
    rw [fetchAndCacheQuotes, if_pos h]
  · by_cases h : 0 < cache.length
    · have hinner : fetchAndCacheQuotes cache o₁ r₁ = (cache, false) := by
        rw [fetchAndCacheQuotes, if_pos h]
      rw [hinner]
      show (fetchAndCacheQuotes cache o₂ r₂).2 = false
      rw [fetchAndCacheQuotes, if_pos h]
    · have hinner : fetchAndCacheQuotes cache o₁ r₁ = (fetchResultCache o₁ r₁, true) := by
        rw [fetchAndCacheQuotes, if_neg h]
      rw [hinner]
      show (fetchAndCacheQuotes (fetchResultCache o₁ r₁) o₂ r₂).2 = false
      rw [fetchAndCacheQuotes, if_pos (fetchResultCache_nonempty o₁ r₁)]

/-- Witness for C8 at a concrete input: with a one-sentence cache the call
resolves immediately without fetching. -/
theorem fetchAndCacheQuotes_idempotent_check :
    fetchAndCacheQuotes [FALLBACK_NO_DOCS] FetchOutcome.noDocs (fun _ => 0) =
      ([FALLBACK_NO_DOCS], false) :=
  (fetchAndCacheQuotes_idempotent [FALLBACK_NO_DOCS] FetchOutcome.noDocs FetchOutcome.noDocs
    (fun _ => 0) (fun _ => 0)).1 (by simp)

end TypeBuddy
